import Mathlib

/-!
Shallow embedding of the NHL schedule aggregation in `utils/nhl_api.py`
(`get_game_by_teams`, `TEAM_ABBR`) and the table-building callback
`update_table` in `app.py`, together with proofs of the specification's
claims about them.

Python dictionaries preserve insertion order, so the mapping built by
`get_game_by_teams` is embedded as an association list in which assigning
to an existing key keeps its position and a new key is appended at the end.
-/

/-- A fetched game, flattened from the JSON fields the code reads:
`gameType`, `teams.home.team.id`, `teams.away.team.id`. -/
structure Game where
  gameType : String
  homeTeamId : Nat
  awayTeamId : Nat
  deriving DecidableEq

/-- One element of the `dates` array: a calendar date and its games. -/
structure DateGroup where
  date : String
  games : List Game
  deriving DecidableEq

/-- The per-team record dict built by `get_game_by_teams`:
keys `date`, `against`, `location`, `type`. -/
structure TeamGameRecord where
  date : String
  against : Nat
  location : String
  type : String
  deriving DecidableEq

/-- The `games_per_team` dict, as an insertion-ordered association list. -/
abbrev GamesPerTeam := List (Nat × List TeamGameRecord)

/-- Python's `if k in d: d[k] = d[k] + [r] else: d[k] = [r]` on an
insertion-ordered dict: an existing key keeps its position and gets `r`
appended to its list; a missing key is appended at the end with the
singleton list. -/
def updateAdd : GamesPerTeam → Nat → TeamGameRecord → GamesPerTeam
  | [], k, r => [(k, [r])]
  | (k', v) :: rest, k, r =>
      if k' = k then (k', v ++ [r]) :: rest else (k', v) :: updateAdd rest k r

/-- The filter test `game_type == 'all' or game_type == game['gameType']`. -/
def matchesFilter (game_type : String) (g : Game) : Bool :=
  game_type == "all" || game_type == g.gameType

/-- The record appended to the home team's list. -/
def homeRecord (d : String) (g : Game) : TeamGameRecord :=
  ⟨d, g.awayTeamId, "home", g.gameType⟩

/-- The record appended to the away team's list. -/
def awayRecord (d : String) (g : Game) : TeamGameRecord :=
  ⟨d, g.homeTeamId, "away", g.gameType⟩

/-- The body of the inner loop of `get_game_by_teams` for one game. -/
def processGame (game_type : String) (d : String) (acc : GamesPerTeam) (g : Game) :
    GamesPerTeam :=
  if matchesFilter game_type g then
    updateAdd (updateAdd acc g.homeTeamId (homeRecord d g)) g.awayTeamId (awayRecord d g)
  else acc

/-- The body of the outer loop of `get_game_by_teams` for one date group. -/
def processDate (game_type : String) (acc : GamesPerTeam) (dg : DateGroup) : GamesPerTeam :=
  dg.games.foldl (processGame game_type dg.date) acc

/-- `get_game_by_teams`, applied to an already-fetched `dates` array. -/
def get_game_by_teams (schedule : List DateGroup) (game_type : String) : GamesPerTeam :=
  schedule.foldl (processDate game_type) []

/-- Dict lookup with `[]` for an absent team: the record list of team `t`. -/
def teamGames (d : GamesPerTeam) (t : Nat) : List TeamGameRecord :=
  (List.lookup t d).getD []

/-- The keys of the dict, in insertion order. -/
def dictKeys (d : GamesPerTeam) : List Nat := d.map Prod.fst

/-- The records one game contributes to team `t`'s list: for a matching game
the single home record if `t` is the home side followed by the single away
record if `t` is the away side, and nothing for a non-matching game. -/
def gameRecordsFor (t : Nat) (d : String) (game_type : String) (g : Game) :
    List TeamGameRecord :=
  if matchesFilter game_type g then
    (if g.homeTeamId = t then [homeRecord d g] else []) ++
      (if g.awayTeamId = t then [awayRecord d g] else [])
  else []

/-- All records team `t` receives, in input order of date groups and games. -/
def recordsFor (t : Nat) (schedule : List DateGroup) (game_type : String) :
    List TeamGameRecord :=
  schedule.flatMap fun dg => dg.games.flatMap (gameRecordsFor t dg.date game_type)

/-- Total number of records stored in the dict. -/
def totalLen (d : GamesPerTeam) : Nat := (d.map fun p => p.2.length).sum

/-- Number of games in the schedule that pass the filter. -/
def countMatching (schedule : List DateGroup) (game_type : String) : Nat :=
  (schedule.map fun dg => (dg.games.filter (matchesFilter game_type)).length).sum

/-- The static identifier-to-abbreviation table `TEAM_ABBR` from
`utils/nhl_api.py`, as an association list in source order. -/
def TEAM_ABBR : List (String × String) :=
  [("1", "NJD"), ("2", "NYI"), ("3", "NYR"), ("4", "PHI"), ("5", "PIT"),
   ("6", "BOS"), ("7", "BUF"), ("8", "MTL"), ("9", "OTT"), ("10", "TOR"),
   ("12", "CAR"), ("13", "FLA"), ("14", "TBL"), ("15", "WSH"), ("16", "CHI"),
   ("17", "DET"), ("18", "NSH"), ("19", "STL"), ("20", "CGY"), ("21", "COL"),
   ("22", "EDM"), ("23", "VAN"), ("24", "ANA"), ("25", "DAL"), ("26", "LAK"),
   ("28", "SJS"), ("29", "CBJ"), ("30", "MIN"), ("52", "WPG"), ("53", "ARI"),
   ("54", "VGK"), ("55", "SEA")]

/-- A row of the `data` list built in `update_table`:
keys `team` (abbreviation) and `game_count`. -/
structure Row where
  team : String
  game_count : Nat
  deriving DecidableEq

/-- The list comprehension in `update_table`: one row per dict entry whose
stringified team id is a key of `TEAM_ABBR`, in dict iteration order. -/
def buildRows (d : GamesPerTeam) : List Row :=
  d.filterMap fun p =>
    match List.lookup (toString p.1) TEAM_ABBR with
    | some abbr => some ⟨abbr, p.2.length⟩
    | none => none

/-- The sort key order of `data.sort(key=lambda team: team['game_count'],
reverse=True)`: `a` may come before `b` when `b`'s count is at most `a`'s. -/
def rowGE (a b : Row) : Prop := b.game_count ≤ a.game_count

instance : DecidableRel rowGE :=
  fun a b => inferInstanceAs (Decidable (b.game_count ≤ a.game_count))

instance : IsTotal Row rowGE :=
  ⟨fun a b => Nat.le_total b.game_count a.game_count⟩

instance : IsTrans Row rowGE :=
  ⟨fun _ _ _ h1 h2 => le_trans h2 h1⟩

/-- Python's `list.sort` is stable, and with `reverse=True` it yields the
non-increasing arrangement with ties in prior order; stable insertion sort
by `rowGE` computes exactly that arrangement. -/
def sortRows (l : List Row) : List Row := List.insertionSort rowGE l

/-- The possible values `update_table` returns for a given aggregation
result: the placeholder string, or a table with the sorted rows and the
`highest_count` and `lowest_count` values used for highlighting. -/
inductive TableView where
  | noData
  | table (rows : List Row) (highest lowest : Nat)
  deriving DecidableEq

/-- The `update_table` callback of `app.py` after the fetch: build the rows,
show the placeholder if there are none, otherwise sort descending by
`game_count` and read the highest count from the first row and the lowest
from the last. -/
def update_table (d : GamesPerTeam) : TableView :=
  match buildRows d with
  | [] => TableView.noData
  | x :: xs =>
      let data := sortRows (x :: xs)
      TableView.table data ((data.head?.getD x).game_count) ((data.getLast?.getD x).game_count)

/-- A raw game as fetched JSON: each field the code reads may be absent. -/
structure RawGame where
  gameType : Option String
  homeTeamId : Option Nat
  awayTeamId : Option Nat
  deriving DecidableEq

/-- A raw element of the `dates` array: `date` and `games` may be absent. -/
structure RawDateGroup where
  date : Option String
  games : Option (List RawGame)
  deriving DecidableEq

/-- A Python subscript `obj[name]`: the value, or a KeyError naming the
missing key that propagates uncaught. -/
def getKey (name : String) : Option α → Except String α
  | some v => Except.ok v
  | none => Except.error name

/-- The filter test with Python's short-circuit `or`: for filter `all` the
game's type is not read; otherwise reading a missing `gameType` raises. -/
def rawMatches (game_type : String) (g : RawGame) : Except String Bool :=
  if game_type == "all" then Except.ok true
  else do
    let ty ← getKey "gameType" g.gameType
    pure (game_type == ty)

/-- The inner loop body on raw data, reading fields in source order; a game
that fails the filter reads no further field. -/
def rawProcessGame (game_type : String) (d : Option String) (acc : GamesPerTeam)
    (g : RawGame) : Except String GamesPerTeam := do
  let m ← rawMatches game_type g
  if m then
    let home ← getKey "teams.home.team.id" g.homeTeamId
    let away ← getKey "teams.away.team.id" g.awayTeamId
    let dateStr ← getKey "date" d
    let ty ← getKey "gameType" g.gameType
    pure (updateAdd (updateAdd acc home ⟨dateStr, away, "home", ty⟩) away
      ⟨dateStr, home, "away", ty⟩)
  else
    pure acc

/-- The outer loop body on raw data: reading a missing `games` raises. -/
def rawProcessDate (game_type : String) (acc : GamesPerTeam) (dg : RawDateGroup) :
    Except String GamesPerTeam := do
  let gs ← getKey "games" dg.games
  gs.foldlM (rawProcessGame game_type dg.date) acc

/-- `get_game_by_teams` on raw data: the run either completes with the dict
or stops at the first missing field with the propagated error. -/
def raw_get_game_by_teams (schedule : List RawDateGroup) (game_type : String) :
    Except String GamesPerTeam :=
  schedule.foldlM (rawProcessDate game_type) []

/-- A raw game carries every field the code reads. -/
def wellFormedGame (g : RawGame) : Prop :=
  g.gameType.isSome ∧ g.homeTeamId.isSome ∧ g.awayTeamId.isSome

/-- A raw date group carries `date`, `games`, and only well-formed games. -/
def wellFormedGroup (dg : RawDateGroup) : Prop :=
  dg.date.isSome ∧ dg.games.isSome ∧ ∀ g ∈ dg.games.getD [], wellFormedGame g

/-- The total view of a well-formed raw game. -/
def projGame (g : RawGame) : Game :=
  ⟨g.gameType.getD "", g.homeTeamId.getD 0, g.awayTeamId.getD 0⟩

/-- The total view of a well-formed raw date group. -/
def projGroup (dg : RawDateGroup) : DateGroup :=
  ⟨dg.date.getD "", (dg.games.getD []).map projGame⟩


instance (g : RawGame) : Decidable (wellFormedGame g) := by
  unfold wellFormedGame
  infer_instance

instance (dg : RawDateGroup) : Decidable (wellFormedGroup dg) := by
  unfold wellFormedGroup
  infer_instance

/-- The scenario input of the spec: one regular-season game on 2022-10-12,
Boston (6) home against Washington (15) away. -/
def sampleSchedule : List DateGroup := [⟨"2022-10-12", [⟨"R", 6, 15⟩]⟩]

/-- A window where team 6 plays twice: home on the 12th, away on the 13th. -/
def twoGameSchedule : List DateGroup :=
  [⟨"2022-10-12", [⟨"R", 6, 15⟩]⟩, ⟨"2022-10-13", [⟨"R", 10, 6⟩]⟩]

/-- A game involving identifier 99, which is not in `TEAM_ABBR`. -/
def schedule99 : List DateGroup := [⟨"2022-10-12", [⟨"R", 99, 6⟩]⟩]

/-- The raw, well-formed form of `sampleSchedule`. -/
def rawSample : List RawDateGroup :=
  [⟨some "2022-10-12", some [⟨some "R", some 6, some 15⟩]⟩]

theorem teamGames_nil (t : Nat) : teamGames [] t = [] := rfl

theorem teamGames_updateAdd (d : GamesPerTeam) (k : Nat) (r : TeamGameRecord) (t : Nat) :
    teamGames (updateAdd d k r) t = teamGames d t ++ if k = t then [r] else [] := by
  induction d with
  | nil =>
      simp only [updateAdd, teamGames, List.lookup]
      rcases eq_or_ne k t with h | h
      · simp [h]
      · simp [h, Ne.symm h, beq_false_of_ne (Ne.symm h)]
  | cons p rest ih =>
      obtain ⟨k', v⟩ := p
      simp only [updateAdd]
      rcases eq_or_ne k' k with hk | hk
      · subst hk
        simp only [if_pos rfl, teamGames, List.lookup]
        rcases eq_or_ne t k' with ht | ht
        · simp [ht]
        · simp [beq_false_of_ne ht, Ne.symm ht]
      · simp only [if_neg hk, teamGames, List.lookup]
        rcases eq_or_ne t k' with ht | ht
        · subst ht
          have : k ≠ t := fun h => hk h.symm
          simp [this]
        · simpa [beq_false_of_ne ht, teamGames] using ih

theorem teamGames_processGame (game_type : String) (d : String) (acc : GamesPerTeam)
    (g : Game) (t : Nat) :
    teamGames (processGame game_type d acc g) t =
      teamGames acc t ++ gameRecordsFor t d game_type g := by
  unfold processGame gameRecordsFor
  rcases h : matchesFilter game_type g with _ | _
  · simp [h]
  · rcases eq_or_ne g.homeTeamId t with hh | hh <;>
      rcases eq_or_ne g.awayTeamId t with ha | ha <;>
        simp [h, hh, ha, teamGames_updateAdd, List.append_assoc]

theorem teamGames_foldl_games (game_type : String) (d : String) (l : List Game)
    (acc : GamesPerTeam) (t : Nat) :
    teamGames (l.foldl (processGame game_type d) acc) t =
      teamGames acc t ++ l.flatMap (gameRecordsFor t d game_type) := by
  induction l generalizing acc with
  | nil => simp
  | cons g gs ih =>
      simp [List.foldl_cons, ih, teamGames_processGame, List.append_assoc]

theorem teamGames_foldl_dates (game_type : String) (s : List DateGroup)
    (acc : GamesPerTeam) (t : Nat) :
    teamGames (s.foldl (processDate game_type) acc) t =
      teamGames acc t ++ recordsFor t s game_type := by
  induction s generalizing acc with
  | nil => simp [recordsFor]
  | cons dg rest ih =>
      simp [List.foldl_cons, recordsFor, ih, processDate, teamGames_foldl_games,
        List.append_assoc]

/-- Characterization of the aggregation: each team's list is exactly the
concatenation, in input order, of the records the games contribute to it. -/
theorem teamGames_get_game_by_teams (s : List DateGroup) (game_type : String) (t : Nat) :
    teamGames (get_game_by_teams s game_type) t = recordsFor t s game_type := by
  simpa [teamGames] using teamGames_foldl_dates game_type s [] t

theorem totalLen_cons (k : Nat) (v : List TeamGameRecord) (d : GamesPerTeam) :
    totalLen ((k, v) :: d) = v.length + totalLen d := by
  simp [totalLen]

theorem totalLen_updateAdd (d : GamesPerTeam) (k : Nat) (r : TeamGameRecord) :
    totalLen (updateAdd d k r) = totalLen d + 1 := by
  induction d with
  | nil => simp [updateAdd, totalLen]
  | cons p rest ih =>
      obtain ⟨k', v⟩ := p
      by_cases hk : k' = k
      · rw [updateAdd, if_pos hk, totalLen_cons, totalLen_cons]
        simp
        omega
      · rw [updateAdd, if_neg hk, totalLen_cons, totalLen_cons, ih]
        omega

theorem totalLen_processGame (game_type : String) (d : String) (acc : GamesPerTeam)
    (g : Game) :
    totalLen (processGame game_type d acc g) =
      totalLen acc + (if matchesFilter game_type g then 2 else 0) := by
  unfold processGame
  rcases h : matchesFilter game_type g with _ | _ <;> simp [h, totalLen_updateAdd]

theorem totalLen_foldl_games (game_type : String) (d : String) (l : List Game)
    (acc : GamesPerTeam) :
    totalLen (l.foldl (processGame game_type d) acc) =
      totalLen acc + 2 * (l.filter (matchesFilter game_type)).length := by
  induction l generalizing acc with
  | nil => simp
  | cons g gs ih =>
      rcases h : matchesFilter game_type g with _ | _ <;>
          simp [List.foldl_cons, ih, totalLen_processGame, h, List.filter_cons]
      all_goals omega

theorem totalLen_foldl_dates (game_type : String) (s : List DateGroup)
    (acc : GamesPerTeam) :
    totalLen (s.foldl (processDate game_type) acc) =
      totalLen acc + 2 * countMatching s game_type := by
  induction s generalizing acc with
  | nil => simp [countMatching]
  | cons dg rest ih =>
      simp [List.foldl_cons, processDate, ih, totalLen_foldl_games, countMatching,
        Nat.mul_add]
      omega

theorem mem_dictKeys_updateAdd (d : GamesPerTeam) (k : Nat) (r : TeamGameRecord) (t : Nat) :
    t ∈ dictKeys (updateAdd d k r) ↔ t ∈ dictKeys d ∨ t = k := by
  induction d with
  | nil => simp [updateAdd, dictKeys]
  | cons p rest ih =>
      obtain ⟨k', v⟩ := p
      by_cases hk : k' = k
      · subst hk
        simp [updateAdd, dictKeys]
        tauto
      · simp [updateAdd, hk, dictKeys] at ih ⊢
        tauto

theorem mem_dictKeys_processGame (game_type : String) (d : String) (acc : GamesPerTeam)
    (g : Game) (t : Nat) :
    t ∈ dictKeys (processGame game_type d acc g) ↔
      t ∈ dictKeys acc ∨
        (matchesFilter game_type g = true ∧ (t = g.homeTeamId ∨ t = g.awayTeamId)) := by
  unfold processGame
  rcases h : matchesFilter game_type g with _ | _
  · simp [h]
  · simp [h, mem_dictKeys_updateAdd]
    tauto

theorem mem_dictKeys_foldl_games (game_type : String) (d : String) (l : List Game)
    (acc : GamesPerTeam) (t : Nat) :
    t ∈ dictKeys (l.foldl (processGame game_type d) acc) ↔
      t ∈ dictKeys acc ∨
        ∃ g ∈ l, matchesFilter game_type g = true ∧ (t = g.homeTeamId ∨ t = g.awayTeamId) := by
  induction l generalizing acc with
  | nil => simp
  | cons g gs ih =>
      simp only [List.foldl_cons, ih, mem_dictKeys_processGame, List.mem_cons]
      constructor
      · rintro ((h | h) | ⟨g', hg', h⟩)
        · exact Or.inl h
        · exact Or.inr ⟨g, Or.inl rfl, h⟩
        · exact Or.inr ⟨g', Or.inr hg', h⟩
      · rintro (h | ⟨g', hg' | hg', h⟩)
        · exact Or.inl (Or.inl h)
        · exact Or.inl (Or.inr (hg' ▸ h))
        · exact Or.inr ⟨g', hg', h⟩

theorem mem_dictKeys_get_game_by_teams (s : List DateGroup) (game_type : String) (t : Nat) :
    t ∈ dictKeys (get_game_by_teams s game_type) ↔
      ∃ dg ∈ s, ∃ g ∈ dg.games,
        matchesFilter game_type g = true ∧ (t = g.homeTeamId ∨ t = g.awayTeamId) := by
  unfold get_game_by_teams
  have main : ∀ (s : List DateGroup) (acc : GamesPerTeam),
      t ∈ dictKeys (s.foldl (processDate game_type) acc) ↔
        t ∈ dictKeys acc ∨
          ∃ dg ∈ s, ∃ g ∈ dg.games,
            matchesFilter game_type g = true ∧ (t = g.homeTeamId ∨ t = g.awayTeamId) := by
    intro s
    induction s with
    | nil => simp
    | cons dg rest ih =>
        intro acc
        simp only [List.foldl_cons, ih, processDate, mem_dictKeys_foldl_games, List.mem_cons]
        constructor
        · rintro ((h | h) | ⟨dg', hdg', h⟩)
          · exact Or.inl h
          · exact Or.inr ⟨dg, Or.inl rfl, h⟩
          · exact Or.inr ⟨dg', Or.inr hdg', h⟩
        · rintro (h | ⟨dg', hdg' | hdg', h⟩)
          · exact Or.inl (Or.inl h)
          · exact Or.inl (Or.inr (hdg' ▸ h))
          · exact Or.inr ⟨dg', hdg', h⟩
  simpa [dictKeys] using main s []

theorem values_nonempty_updateAdd (d : GamesPerTeam) (k : Nat) (r : TeamGameRecord)
    (hd : ∀ p ∈ d, p.2 ≠ []) : ∀ p ∈ updateAdd d k r, p.2 ≠ [] := by
  induction d with
  | nil => simp [updateAdd]
  | cons q rest ih =>
      obtain ⟨k', v⟩ := q
      intro p hp
      by_cases hk : k' = k
      · rw [updateAdd, if_pos hk] at hp
        rcases List.mem_cons.mp hp with rfl | hp'
        · simp
        · exact hd p (List.mem_cons_of_mem _ hp')
      · rw [updateAdd, if_neg hk] at hp
        rcases List.mem_cons.mp hp with rfl | hp'
        · exact hd _ (List.mem_cons_self _ _)
        · exact ih (fun q hq => hd q (List.mem_cons_of_mem _ hq)) p hp'

theorem values_nonempty_processGame (game_type : String) (d : String) (acc : GamesPerTeam)
    (g : Game) (hd : ∀ p ∈ acc, p.2 ≠ []) :
    ∀ p ∈ processGame game_type d acc g, p.2 ≠ [] := by
  unfold processGame
  rcases h : matchesFilter game_type g with _ | _
  · simpa using hd
  · simpa using values_nonempty_updateAdd _ _ _ (values_nonempty_updateAdd _ _ _ hd)

theorem values_nonempty_get_game_by_teams (s : List DateGroup) (game_type : String) :
    ∀ p ∈ get_game_by_teams s game_type, p.2 ≠ [] := by
  unfold get_game_by_teams
  have inner : ∀ (d : String) (l : List Game) (acc : GamesPerTeam),
      (∀ p ∈ acc, p.2 ≠ []) → ∀ p ∈ l.foldl (processGame game_type d) acc, p.2 ≠ [] := by
    intro d l
    induction l with
    | nil => intro acc h; simpa using h
    | cons g gs ihg =>
        intro acc h
        exact fun p hp => ihg _ (values_nonempty_processGame game_type d acc g h) p hp
  have main : ∀ (s : List DateGroup) (acc : GamesPerTeam),
      (∀ p ∈ acc, p.2 ≠ []) → ∀ p ∈ s.foldl (processDate game_type) acc, p.2 ≠ [] := by
    intro s
    induction s with
    | nil => intro acc h; simpa using h
    | cons dg rest ih =>
        intro acc h
        exact fun p hp => ih _ (inner dg.date dg.games acc h) p hp
  exact main s [] (by simp)

theorem rawProcessGame_ok (game_type : String) (d : Option String) (hd : d.isSome)
    (acc : GamesPerTeam) (g : RawGame) (hg : wellFormedGame g) :
    rawProcessGame game_type d acc g =
      Except.ok (processGame game_type (d.getD "") acc (projGame g)) := by
  obtain ⟨ty, hty⟩ := Option.isSome_iff_exists.mp hg.1
  obtain ⟨home, hhome⟩ := Option.isSome_iff_exists.mp hg.2.1
  obtain ⟨away, haway⟩ := Option.isSome_iff_exists.mp hg.2.2
  obtain ⟨dateStr, hdate⟩ := Option.isSome_iff_exists.mp hd
  rcases hall : game_type == "all" with _ | _
  · rcases hm : game_type == ty with _ | _ <;>
      simp [rawProcessGame, rawMatches, getKey, hty, hhome, haway, hdate, hall, hm,
        processGame, matchesFilter, projGame, homeRecord, awayRecord,
        Bind.bind, Except.bind, Pure.pure, Except.pure]
  · simp [rawProcessGame, rawMatches, getKey, hty, hhome, haway, hdate, hall,
      processGame, matchesFilter, projGame, homeRecord, awayRecord,
      Bind.bind, Except.bind, Pure.pure, Except.pure]

theorem rawFoldGames_ok (game_type : String) (d : Option String) (hd : d.isSome)
    (l : List RawGame) (hl : ∀ g ∈ l, wellFormedGame g) (acc : GamesPerTeam) :
    l.foldlM (rawProcessGame game_type d) acc =
      Except.ok (l.foldl (fun a g => processGame game_type (d.getD "") a (projGame g)) acc) := by
  induction l generalizing acc with
  | nil => rfl
  | cons g gs ih =>
      rw [List.foldlM_cons,
        rawProcessGame_ok game_type d hd acc g (hl g (List.mem_cons_self _ _))]
      simpa using ih (fun g' hg' => hl g' (List.mem_cons_of_mem _ hg')) _

theorem rawProcessDate_ok (game_type : String) (acc : GamesPerTeam) (dg : RawDateGroup)
    (h : wellFormedGroup dg) :
    rawProcessDate game_type acc dg =
      Except.ok (processDate game_type acc (projGroup dg)) := by
  obtain ⟨gs, hgs⟩ := Option.isSome_iff_exists.mp h.2.1
  have hwf : ∀ g ∈ gs, wellFormedGame g := by
    intro g hg
    exact h.2.2 g (by simp [hgs, hg])
  simp [rawProcessDate, getKey, hgs, rawFoldGames_ok game_type dg.date h.1 gs hwf acc,
    processDate, projGroup, List.foldl_map, Bind.bind, Except.bind]

theorem rawFoldDates_ok (game_type : String) (s : List RawDateGroup)
    (h : ∀ dg ∈ s, wellFormedGroup dg) (acc : GamesPerTeam) :
    s.foldlM (rawProcessDate game_type) acc =
      Except.ok ((s.map projGroup).foldl (processDate game_type) acc) := by
  induction s generalizing acc with
  | nil => rfl
  | cons dg rest ih =>
      rw [List.foldlM_cons,
        rawProcessDate_ok game_type acc dg (h dg (List.mem_cons_self _ _))]
      simpa [Bind.bind, Except.bind] using
        ih (fun dg' hdg' => h dg' (List.mem_cons_of_mem _ hdg')) _

theorem raw_get_game_by_teams_ok (s : List RawDateGroup) (game_type : String)
    (h : ∀ dg ∈ s, wellFormedGroup dg) :
    raw_get_game_by_teams s game_type =
      Except.ok (get_game_by_teams (s.map projGroup) game_type) :=
  rawFoldDates_ok game_type s h []

theorem sorted_sortRows (l : List Row) : List.Sorted rowGE (sortRows l) :=
  List.sorted_insertionSort rowGE l

theorem perm_sortRows (l : List Row) : (sortRows l).Perm l :=
  List.perm_insertionSort rowGE l

theorem filter_orderedInsert_of_eq (x : Row) (l : List Row) (c : Nat)
    (hx : x.game_count = c) :
    (List.orderedInsert rowGE x l).filter (fun y => y.game_count == c) =
      x :: l.filter (fun y => y.game_count == c) := by
  induction l with
  | nil => simp [hx]
  | cons y ys ih =>
      by_cases h : rowGE x y
      · rw [List.orderedInsert, if_pos h]
        simp [List.filter_cons, hx]
      · rw [List.orderedInsert, if_neg h]
        have hy : y.game_count ≠ c := by
          rw [rowGE, not_le] at h
          omega
        simp [List.filter_cons, hy, ih]

theorem filter_orderedInsert_of_ne (x : Row) (l : List Row) (c : Nat)
    (hx : x.game_count ≠ c) :
    (List.orderedInsert rowGE x l).filter (fun y => y.game_count == c) =
      l.filter (fun y => y.game_count == c) := by
  induction l with
  | nil => simp [hx]
  | cons y ys ih =>
      by_cases h : rowGE x y
      · rw [List.orderedInsert, if_pos h]
        simp [List.filter_cons, hx]
      · rw [List.orderedInsert, if_neg h]
        simp [List.filter_cons, ih]

/-- Stability of the row sort: the subsequence of rows with any given
game count is unchanged. -/
theorem filter_sortRows (l : List Row) (c : Nat) :
    (sortRows l).filter (fun y => y.game_count == c) =
      l.filter (fun y => y.game_count == c) := by
  induction l with
  | nil => rfl
  | cons x xs ih =>
      simp only [sortRows, List.insertionSort] at ih ⊢
      by_cases hx : x.game_count = c
      · rw [filter_orderedInsert_of_eq x _ c hx, ih]
        simp [List.filter_cons, hx]
      · rw [filter_orderedInsert_of_ne x _ c hx, ih]
        simp [List.filter_cons, hx]

theorem head_max_of_sorted (L : List Row) (hs : List.Sorted rowGE L) (hd : Row)
    (hh : L.head? = some hd) : ∀ x ∈ L, x.game_count ≤ hd.game_count := by
  cases L with
  | nil => simp at hh
  | cons a t =>
      have ha : hd = a := by simpa using hh.symm
      subst ha
      intro x hx
      rcases List.mem_cons.mp hx with rfl | hx'
      · exact le_refl _
      · exact List.rel_of_sorted_cons hs x hx'

theorem getLast_min_of_sorted :
    ∀ (L : List Row), List.Sorted rowGE L → ∀ la : Row, L.getLast? = some la →
      ∀ x ∈ L, la.game_count ≤ x.game_count := by
  intro L
  induction L with
  | nil => intro _ la hla; simp at hla
  | cons a t ih =>
      intro hs la hla x hx
      cases t with
      | nil =>
          simp at hla
          subst hla
          simp at hx
          subst hx
          exact le_refl _
      | cons b t' =>
          have hla' : (b :: t').getLast? = some la := by
            simpa [List.getLast?_cons_cons] using hla
          rcases List.mem_cons.mp hx with rfl | hx'
          · have hmem : la ∈ b :: t' := by
              have := List.mem_getLast?_eq_getLast (l := b :: t') (x := la) ?_
              · obtain ⟨h1, h2⟩ := this
                exact h2 ▸ List.getLast_mem h1
              · simp [hla']
            exact List.rel_of_sorted_cons hs la hmem
          · exact ih hs.of_cons la hla' x hx'

theorem mem_buildRows (d : GamesPerTeam) (row : Row) (h : row ∈ buildRows d) :
    ∃ p ∈ d, List.lookup (toString p.1) TEAM_ABBR = some row.team ∧
      row.game_count = p.2.length := by
  unfold buildRows at h
  obtain ⟨p, hp, hsome⟩ := List.mem_filterMap.mp h
  refine ⟨p, hp, ?_⟩
  rcases hl : List.lookup (toString p.1) TEAM_ABBR with _ | abbr
  · rw [hl] at hsome
    simp at hsome
  · rw [hl] at hsome
    simp at hsome
    subst hsome
    exact ⟨rfl, rfl⟩

theorem records_type_updateAdd (d : GamesPerTeam) (k : Nat) (r : TeamGameRecord)
    (P : TeamGameRecord → Prop)
    (hd : ∀ p ∈ d, ∀ x ∈ p.2, P x) (hr : P r) :
    ∀ p ∈ updateAdd d k r, ∀ x ∈ p.2, P x := by
  induction d with
  | nil =>
      intro p hp x hx
      simp [updateAdd] at hp
      subst hp
      simp at hx
      subst hx
      exact hr
  | cons q rest ih =>
      obtain ⟨k', v⟩ := q
      intro p hp x hx
      by_cases hk : k' = k
      · rw [updateAdd, if_pos hk] at hp
        rcases List.mem_cons.mp hp with rfl | hp'
        · rcases List.mem_append.mp hx with hx' | hx'
          · exact hd _ (List.mem_cons_self _ _) x hx'
          · simp at hx'
            subst hx'
            exact hr
        · exact hd p (List.mem_cons_of_mem _ hp') x hx
      · rw [updateAdd, if_neg hk] at hp
        rcases List.mem_cons.mp hp with rfl | hp'
        · exact hd _ (List.mem_cons_self _ _) x hx
        · exact ih (fun q hq => hd q (List.mem_cons_of_mem _ hq)) p hp' x hx

theorem records_type_processGame (game_type : String) (d : String) (acc : GamesPerTeam)
    (g : Game) (h : game_type ≠ "all")
    (hd : ∀ p ∈ acc, ∀ r ∈ p.2, r.type = game_type) :
    ∀ p ∈ processGame game_type d acc g, ∀ r ∈ p.2, r.type = game_type := by
  unfold processGame
  rcases hm : matchesFilter game_type g with _ | _
  · simpa using hd
  · have hgt : game_type = g.gameType := by
      unfold matchesFilter at hm
      rcases hall : (game_type == "all") with _ | _
      · rw [hall] at hm
        simp at hm
        exact hm
      · exact absurd (by simpa using hall) h
    simp only [hm, if_true]
    refine records_type_updateAdd _ _ _ _ (records_type_updateAdd _ _ _ _ hd ?_) ?_
    · simp [homeRecord]
      exact hgt.symm
    · simp [awayRecord]
      exact hgt.symm

theorem records_type_get_game_by_teams (s : List DateGroup) (game_type : String)
    (h : game_type ≠ "all") :
    ∀ p ∈ get_game_by_teams s game_type, ∀ r ∈ p.2, r.type = game_type := by
  unfold get_game_by_teams
  have inner : ∀ (d : String) (l : List Game) (acc : GamesPerTeam),
      (∀ p ∈ acc, ∀ r ∈ p.2, r.type = game_type) →
      ∀ p ∈ l.foldl (processGame game_type d) acc, ∀ r ∈ p.2, r.type = game_type := by
    intro d l
    induction l with
    | nil => intro acc hacc; simpa using hacc
    | cons g gs ih =>
        intro acc hacc
        exact fun p hp => ih _ (records_type_processGame game_type d acc g h hacc) p hp
  have main : ∀ (s : List DateGroup) (acc : GamesPerTeam),
      (∀ p ∈ acc, ∀ r ∈ p.2, r.type = game_type) →
      ∀ p ∈ s.foldl (processDate game_type) acc, ∀ r ∈ p.2, r.type = game_type := by
    intro s
    induction s with
    | nil => intro acc hacc; simpa using hacc
    | cons dg rest ih =>
        intro acc hacc
        exact fun p hp => ih _ (inner dg.date dg.games acc hacc) p hp
  exact main s [] (by simp)

/-- C1: for every game in the per-date groups that passes the filter, with
home team H and away team A, aggregation contributes to H's list exactly one
record, with opponent A, location home and the game's type, and to A's list
exactly one record, with opponent H, location away and the game's type; a
game that does not pass the filter contributes no record to any team's list:
each team's list is the concatenation of exactly these contributions. -/
theorem C1_per_game_records (s : List DateGroup) (game_type : String) (t : Nat) :
    teamGames (get_game_by_teams s game_type) t =
      s.flatMap fun dg => dg.games.flatMap fun g =>
        if matchesFilter game_type g then
          (if g.homeTeamId = t then [⟨dg.date, g.awayTeamId, "home", g.gameType⟩] else []) ++
            (if g.awayTeamId = t then [⟨dg.date, g.homeTeamId, "away", g.gameType⟩] else [])
        else [] := by
  rw [teamGames_get_game_by_teams]
  rfl

/-- C2: for every per-date input and filter, the total number of records
over all team lists is exactly twice the number of games matching the
filter. -/
theorem C2_total_record_count (s : List DateGroup) (game_type : String) :
    totalLen (get_game_by_teams s game_type) = 2 * countMatching s game_type := by
  simpa [totalLen] using totalLen_foldl_dates game_type s []

/-- C3: for every filter other than `all`, every record in every list of
the aggregation result has its type field equal to the filter value. -/
theorem C3_nonall_filter_type (s : List DateGroup) (game_type : String)
    (h : game_type ≠ "all") :
    ∀ p ∈ get_game_by_teams s game_type, ∀ r ∈ p.2, r.type = game_type :=
  records_type_get_game_by_teams s game_type h

theorem C3_nonall_filter_type_witness :
    TeamGameRecord.type ⟨"2022-10-12", 15, "home", "R"⟩ = "R" :=
  C3_nonall_filter_type sampleSchedule "R" (by decide)
    (6, [⟨"2022-10-12", 15, "home", "R"⟩]) (by decide)
    ⟨"2022-10-12", 15, "home", "R"⟩ (by decide)

/-- C4: the empty `dates` array aggregates to the empty mapping, an input
with no game matching the filter aggregates to the empty mapping (for
example filter P over only regular-season games), and in both cases the
presentation layer renders the no-data placeholder instead of a table. -/
theorem C4_empty_mapping_no_data (game_type : String) (s : List DateGroup)
    (h : ∀ dg ∈ s, ∀ g ∈ dg.games, matchesFilter game_type g = false) :
    get_game_by_teams [] game_type = [] ∧
      get_game_by_teams s game_type = [] ∧
      update_table (get_game_by_teams [] game_type) = TableView.noData ∧
      update_table (get_game_by_teams s game_type) = TableView.noData ∧
      get_game_by_teams sampleSchedule "P" = [] := by
  have inner : ∀ (d : String) (l : List Game),
      (∀ g ∈ l, matchesFilter game_type g = false) →
      ∀ acc : GamesPerTeam, l.foldl (processGame game_type d) acc = acc := by
    intro d l
    induction l with
    | nil => intro _ acc; rfl
    | cons g gs ih =>
        intro hl acc
        rw [List.foldl_cons]
        have hg : processGame game_type d acc g = acc := by
          unfold processGame
          simp [hl g (List.mem_cons_self _ _)]
        rw [hg]
        exact ih (fun g' hg' => hl g' (List.mem_cons_of_mem _ hg')) acc
  have h2 : get_game_by_teams s game_type = [] := by
    unfold get_game_by_teams
    have main : ∀ (s' : List DateGroup),
        (∀ dg ∈ s', ∀ g ∈ dg.games, matchesFilter game_type g = false) →
        ∀ acc : GamesPerTeam, s'.foldl (processDate game_type) acc = acc := by
      intro s'
      induction s' with
      | nil => intro _ acc; rfl
      | cons dg rest ih =>
          intro hs acc
          rw [List.foldl_cons]
          have hdg : processDate game_type acc dg = acc := by
            unfold processDate
            exact inner dg.date dg.games (hs dg (List.mem_cons_self _ _)) acc
          rw [hdg]
          exact ih (fun dg' hdg' => hs dg' (List.mem_cons_of_mem _ hdg')) acc
    exact main s h []
  refine ⟨rfl, h2, rfl, ?_, rfl⟩
  rw [h2]
  rfl

theorem C4_empty_mapping_no_data_witness :
    get_game_by_teams sampleSchedule "P" = [] ∧
      update_table (get_game_by_teams sampleSchedule "P") = TableView.noData :=
  ⟨(C4_empty_mapping_no_data "P" sampleSchedule (by decide)).2.2.2.2,
    (C4_empty_mapping_no_data "P" sampleSchedule (by decide)).2.2.2.1⟩

/-- C5: the presentation sort orders rows non-increasingly by game count, is
a permutation of its input, is stable in that the subsequence of rows with
any fixed count is unchanged, and the first sorted row attains the maximum
count while the last attains the minimum. -/
theorem C5_sort_rows (l : List Row) :
    List.Sorted rowGE (sortRows l) ∧
      (sortRows l).Perm l ∧
      (∀ c : Nat, (sortRows l).filter (fun y => y.game_count == c) =
        l.filter (fun y => y.game_count == c)) ∧
      (∀ hd : Row, (sortRows l).head? = some hd →
        ∀ x ∈ sortRows l, x.game_count ≤ hd.game_count) ∧
      (∀ la : Row, (sortRows l).getLast? = some la →
        ∀ x ∈ sortRows l, la.game_count ≤ x.game_count) :=
  ⟨sorted_sortRows l, perm_sortRows l, filter_sortRows l,
    fun hd hh => head_max_of_sorted _ (sorted_sortRows l) hd hh,
    fun la hla => getLast_min_of_sorted _ (sorted_sortRows l) la hla⟩

theorem C5_sort_rows_witness :
    (Row.mk "BOS" 1).game_count ≤ (Row.mk "WSH" 3).game_count :=
  (C5_sort_rows [⟨"BOS", 1⟩, ⟨"WSH", 3⟩, ⟨"TOR", 3⟩]).2.2.2.1 ⟨"WSH", 3⟩ (by decide)
    ⟨"BOS", 1⟩ (by decide)

/-- C6: each team's list in the aggregation result follows the input order
of date groups and, within a date group, the given game order, with no
reordering or deduplication; in particular team 6, which plays home on the
12th and away on the 13th, gets both records in that order. -/
theorem C6_order_follows_input :
    (∀ (s : List DateGroup) (game_type : String) (t : Nat),
        teamGames (get_game_by_teams s game_type) t = recordsFor t s game_type) ∧
      teamGames (get_game_by_teams twoGameSchedule "R") 6 =
        [⟨"2022-10-12", 15, "home", "R"⟩, ⟨"2022-10-13", 10, "away", "R"⟩] :=
  ⟨teamGames_get_game_by_teams, by decide⟩

/-- C7: every displayed row comes from a mapping entry whose stringified
identifier is a key of `TEAM_ABBR` and takes its abbreviation from that
table; identifier 99, absent from the table, is aggregated into the mapping
yet excluded from the displayed rows. -/
theorem C7_unknown_team_excluded :
    (∀ (d : GamesPerTeam) (row : Row), row ∈ buildRows d →
        ∃ p ∈ d, List.lookup (toString p.1) TEAM_ABBR = some row.team ∧
          row.game_count = p.2.length) ∧
      99 ∈ dictKeys (get_game_by_teams schedule99 "R") ∧
      buildRows (get_game_by_teams schedule99 "R") = [⟨"BOS", 1⟩] :=
  ⟨mem_buildRows, by decide, by decide⟩

theorem C7_unknown_team_excluded_witness :
    ∃ p ∈ get_game_by_teams schedule99 "R",
      List.lookup (toString p.1) TEAM_ABBR = some (Row.mk "BOS" 1).team ∧
        (Row.mk "BOS" 1).game_count = p.2.length :=
  C7_unknown_team_excluded.1 (get_game_by_teams schedule99 "R") ⟨"BOS", 1⟩ (by decide)

/-- C8: every team identifier that is a key of the aggregation result is the
home or away participant of at least one game of the input. -/
theorem C8_keys_are_participants (s : List DateGroup) (game_type : String) (t : Nat)
    (h : t ∈ dictKeys (get_game_by_teams s game_type)) :
    ∃ dg ∈ s, ∃ g ∈ dg.games, g.homeTeamId = t ∨ g.awayTeamId = t := by
  obtain ⟨dg, hdg, g, hg, -, hpart⟩ := (mem_dictKeys_get_game_by_teams s game_type t).mp h
  exact ⟨dg, hdg, g, hg, hpart.imp Eq.symm Eq.symm⟩

theorem C8_keys_are_participants_witness :
    ∃ dg ∈ sampleSchedule, ∃ g ∈ dg.games, g.homeTeamId = 6 ∨ g.awayTeamId = 6 :=
  C8_keys_are_participants sampleSchedule "R" 6 (by decide)

/-- C9: under the precondition that every date group and game carries the
fields the code reads, the aggregation on raw data raises no exception and
computes exactly the total aggregation; a missing field propagates as an
uncaught error, shown on a game lacking `gameType`. -/
theorem C9_no_exception_when_well_formed (s : List RawDateGroup) (game_type : String)
    (h : ∀ dg ∈ s, wellFormedGroup dg) :
    raw_get_game_by_teams s game_type =
        Except.ok (get_game_by_teams (s.map projGroup) game_type) ∧
      raw_get_game_by_teams [⟨some "2022-10-12", some [⟨none, some 6, some 15⟩]⟩] "R" =
        Except.error "gameType" :=
  ⟨raw_get_game_by_teams_ok s game_type h, rfl⟩

theorem C9_no_exception_when_well_formed_witness :
    raw_get_game_by_teams rawSample "R" =
      Except.ok (get_game_by_teams (rawSample.map projGroup) "R") :=
  (C9_no_exception_when_well_formed rawSample "R" (by decide)).1

/-- C10: every key of the aggregation result maps to a non-empty list, so
every displayed row's game count is at least 1. -/
theorem C10_nonempty_lists (s : List DateGroup) (game_type : String) :
    (∀ p ∈ get_game_by_teams s game_type, p.2 ≠ []) ∧
      ∀ row ∈ buildRows (get_game_by_teams s game_type), 1 ≤ row.game_count := by
  refine ⟨values_nonempty_get_game_by_teams s game_type, ?_⟩
  intro row hrow
  obtain ⟨p, hp, -, hlen⟩ := mem_buildRows _ row hrow
  have hne := values_nonempty_get_game_by_teams s game_type p hp
  rw [hlen]
  exact List.length_pos.mpr hne

theorem C10_nonempty_lists_witness :
    ([⟨"2022-10-12", 15, "home", "R"⟩] : List TeamGameRecord) ≠ [] :=
  (C10_nonempty_lists sampleSchedule "R").1 (6, [⟨"2022-10-12", 15, "home", "R"⟩])
    (by decide)
